import Mathlib

/-!
# Verification of the `express-route-visualizer` route-discovery engine

Shallow embedding of `src/extract-routes.utils.ts` and `src/extract-routes.ts`.
JavaScript strings are modelled as Lean `String` (lists of characters); the
specific regular-expression operations the source applies are modelled by
dedicated scanning functions over `List Char`, each annotated with the exact
JS expression it embeds.  JS `null`/`undefined` arguments are modelled with
`Option`; polymorphic (`any`) route-path values by the `JSPath` inductive.
All definitions are total computable functions, so the engine model can never
raise an exception by construction.
-/

namespace RouteViz

/-- A compiled matcher value (a JS `RegExp`): its `source` text and `flags`. -/
structure RegexVal where
  source : String
  flags : String
deriving DecidableEq, Repr

/-- JS `RegExp.prototype.toString()`: `"/" + source + "/" + flags`. -/
def RegexVal.toStr (r : RegexVal) : String :=
  ⟨'/' :: (r.source.data ++ '/' :: r.flags.data)⟩

/-- `s.replace(/\\\//g, "/")` — replace every escaped separator `\/` by `/`
(used in `extractFastPathRoute` line 89 and `extractStandardRoute` line 112). -/
def unescSlash : List Char → List Char
  | [] => []
  | [c] => [c]
  | a :: b :: t =>
      if a = '\\' ∧ b = '/' then '/' :: unescSlash t
      else a :: unescSlash (b :: t)

/-- The capture of `regexString.match(/\^\\\/([^?]*)/)`: at the leftmost
occurrence of the literal text `^\/`, the maximal following run of
non-`?` characters (`extract-routes.utils.ts` line 87). -/
def fastCapture : List Char → Option (List Char)
  | [] => none
  | [_] => none
  | [_, _] => none
  | a :: b :: c :: t =>
      if a = '^' ∧ b = '\\' ∧ c = '/' then some (t.takeWhile (fun x => x ≠ '?'))
      else fastCapture (b :: c :: t)

/-- `extractFastPathRoute` (`extract-routes.utils.ts` lines 85-93):
if the matcher text contains `^\/`, un-escape the captured literal segment
and prepend `/`; otherwise `null`. -/
def extractFastPathRoute (regexString : String) : Option String :=
  match fastCapture regexString.data with
  | some cap => some ⟨'/' :: unescSlash cap⟩
  | none => none

/-- JS `String.prototype.includes(pat)` on character lists. -/
def hasSub (pat : List Char) : List Char → Bool
  | [] => pat.isEmpty
  | c :: t => pat.isPrefixOf (c :: t) || hasSub pat t

/-- `path.replace(/^\/\^/, "")` — drop a leading `/^` (line 108). -/
def removeStartMarker : List Char → List Char
  | '/' :: '^' :: t => t
  | l => l

/-- `path.replace(/\\\/\?(?:\/|$).*$/, "")` — truncate at the leftmost
occurrence of `\/?` that is followed by `/` or by the end of the string
(line 109). -/
def removeEndPattern : List Char → List Char
  | '\\' :: '/' :: '?' :: [] => []
  | '\\' :: '/' :: '?' :: '/' :: _ => []
  | c :: t => c :: removeEndPattern t
  | [] => []

/-- `path.replace(/\/i$/, "")` — drop a trailing `/i` (line 110). -/
def removeFlagSuffix (l : List Char) : List Char :=
  if ['/', 'i'].isSuffixOf l then l.dropLast.dropLast else l

/-- `path.replace(/\$\/$/, "")` — drop a trailing `$/` (line 111). -/
def removeEndMarker (l : List Char) : List Char :=
  if ['$', '/'].isSuffixOf l then l.dropLast.dropLast else l

/-- The regex step `[^)]*\)` at the current position: split the list into the
maximal run of non-`)` characters and the remainder after the first `)`, or
`none` when no `)` follows. -/
def breakAtParen : List Char → Option (List Char × List Char)
  | [] => none
  | ')' :: t => some ([], t)
  | c :: t =>
      match breakAtParen t with
      | some (r, rest) => some (c :: r, rest)
      | none => none

theorem breakAtParen_lt : ∀ {l r rest : List Char},
    breakAtParen l = some (r, rest) → rest.length < l.length := by
  intro l
  induction l with
  | nil => intro r rest h; simp [breakAtParen] at h
  | cons c t ih =>
      intro r rest h
      rw [breakAtParen.eq_def] at h
      split at h
      · exact absurd h (by simp)
      · rename_i x t' heq
        injection heq with h1 h2
        subst h2
        simp only [Option.some.injEq, Prod.mk.injEq] at h
        simp [← h.2]
      · rename_i c' t' heq
        injection heq with h1 h2
        subst h1
        subst h2
        split at h
        · rename_i a b hab
          simp only [Option.some.injEq, Prod.mk.injEq] at h
          have := ih hab
          simp [← h.2]
          omega
        · exact absurd h (by simp)

/-- `path.replace(/\(\?:\([^)]+\)\)/g, "")` — delete every occurrence of
`(?:(` + nonempty run of non-`)` characters + `))` (line 113). -/
def removeNonCapGroups (l : List Char) : List Char :=
  match l with
  | '(' :: '?' :: ':' :: '(' :: t =>
      match h : breakAtParen t with
      | some (r, ')' :: rest) =>
          if r.isEmpty then '(' :: removeNonCapGroups ('?' :: ':' :: '(' :: t)
          else removeNonCapGroups rest
      | _ => '(' :: removeNonCapGroups ('?' :: ':' :: '(' :: t)
  | c :: t => c :: removeNonCapGroups t
  | [] => []
termination_by l.length
decreasing_by
  · simp
  · have := breakAtParen_lt h
    simp at this ⊢
    omega
  · simp
  · simp

/-- `path.replace(/\([^)]*\)/g, "")` — delete every occurrence of `(` +
run of non-`)` characters + `)` (line 114). -/
def removeCapGroups (l : List Char) : List Char :=
  match l with
  | '(' :: t =>
      match h : breakAtParen t with
      | some (_r, rest) => removeCapGroups rest
      | none => '(' :: removeCapGroups t
  | c :: t => c :: removeCapGroups t
  | [] => []
termination_by l.length
decreasing_by
  · have := breakAtParen_lt h
    simp
    omega
  · simp
  · simp

/-- Collapse every run of separators to a single `/`.  Models both
`path.replace(/\/{2,}/g, "/")` (line 115) and
`combined.replace(/\/+/g, "/")` (line 163): on any input the two regex
replacements produce the same string, a copy in which each maximal run of
`/` characters is shortened to one. -/
def collapseSlashRuns : List Char → List Char
  | [] => []
  | a :: t =>
      match t with
      | [] => [a]
      | b :: _ => if a = '/' ∧ b = '/' then collapseSlashRuns t else a :: collapseSlashRuns t

/-- The character class of `path.replace(/[\^$?*+[\]\\{}|]/g, "")` (line 122). -/
def specialChars : List Char :=
  ['^', '$', '?', '*', '+', '[', ']', '\\', '{', '}', '|']

/-- `path.replace(/[\^$?*+[\]\\{}|]/g, "")` — remove remaining regex
metacharacters (line 122). -/
def removeSpecialChars (l : List Char) : List Char :=
  l.filter (fun c => !(specialChars.contains c))

/-- `extractStandardRoute` (`extract-routes.utils.ts` lines 98-133). -/
def extractStandardRoute (regexString : String) : Option String :=
  -- line 100: regexString.includes("^\/") || regexString.includes("\/?")
  if hasSub "^\\/".data regexString.data || hasSub "\\/?".data regexString.data then
    -- line 102: root-path special case
    if hasSub "\\/?(?=\\/|$)".data regexString.data then some "/"
    else
      -- lines 107-115: the replacement pipeline, applied in source order
      let path :=
        collapseSlashRuns (removeCapGroups (removeNonCapGroups (unescSlash
          (removeEndMarker (removeFlagSuffix (removeEndPattern
            (removeStartMarker regexString.data)))))))
      -- line 117
      if path = "\\/".data ∨ path = [] ∨ path = "(?:)".data then some "/"
      else
        -- line 122
        let path := removeSpecialChars path
        -- lines 125-127: ensure a leading slash
        if path.head? = some '/' then some ⟨path⟩ else some ⟨'/' :: path⟩
  else none

/-- `extractFallbackRoute` (lines 138-141): always the root path. -/
def extractFallbackRoute (_regexString : String) : String := "/"

/-- JS `a || b` where `a` is a possibly-`null` string: `null` and the empty
string are falsy. -/
def jsOrStr : Option String → String → String
  | some s, b => if s = "" then b else s
  | none, b => b

/-- `extractBaseRoute` (`extract-routes.utils.ts` lines 69-80). -/
def extractBaseRoute : Option RegexVal → String
  | none => "/"
  | some r =>
      let regexString := r.toStr
      jsOrStr (extractFastPathRoute regexString)
        (jsOrStr (extractStandardRoute regexString) (extractFallbackRoute regexString))

/-- The leftmost-match global replace `regexString.replace(/^\/|\/[gimy]*$/g, "")`
after the position-0 alternative: drop from the first `/` whose entire suffix
consists of flag characters `g i m y` (`normalizeRoutePath`, line 184). -/
def stripTrailingDelim : List Char → List Char
  | [] => []
  | '/' :: t =>
      if t.all (fun c => c == 'g' || c == 'i' || c == 'm' || c == 'y') then []
      else '/' :: stripTrailingDelim t
  | c :: t => c :: stripTrailingDelim t

/-- `regexString.replace(/^\/|\/[gimy]*$/g, "")` (line 184): remove a leading
`/` and the trailing `/flags` delimiter. -/
def stripRegexDelims (l : List Char) : List Char :=
  stripTrailingDelim (match l with | '/' :: t => t | l => l)

/-- `path.replace(/\([^)]+\)/g, ":param")` — replace every `(` + nonempty
run of non-`)` characters + `)` by the placeholder `:param` (line 186). -/
def replParamGroups (l : List Char) : List Char :=
  match l with
  | '(' :: t =>
      match h : breakAtParen t with
      | some (r, rest) =>
          if r.isEmpty then '(' :: replParamGroups t
          else ':' :: 'p' :: 'a' :: 'r' :: 'a' :: 'm' :: replParamGroups rest
      | none => '(' :: replParamGroups t
  | c :: t => c :: replParamGroups t
  | [] => []
termination_by l.length
decreasing_by
  · simp
  · have := breakAtParen_lt h
    simp
    omega
  · simp
  · simp

/-- A JS route-path value (`routePath: any`): a literal string, a `RegExp`,
or any other value, the latter carrying the string its `toString` produces
(`none` for `null`/`undefined`, where optional chaining yields `undefined`). -/
inductive JSPath where
  | str (s : String)
  | regex (re : RegexVal)
  | other (display : Option String)
deriving DecidableEq, Repr

/-- `normalizeRoutePath` (`extract-routes.utils.ts` lines 179-196). -/
def normalizeRoutePath : JSPath → String
  | .regex re =>
      -- lines 180-187: decode the RegExp's textual form
      let regexString := re.toStr
      let path := stripRegexDelims regexString.data
      let path := replParamGroups (unescSlash path)
      ⟨'/' :: path⟩                               -- return "/" + path
  | .other display =>
      -- lines 188-192: `routePath?.toString?.() || "/"`, then ensure leading slash
      let pathStr : String :=
        match display with
        | none => "/"
        | some s => if s = "" then "/" else s
      if pathStr.data.head? = some '/' then pathStr else ⟨'/' :: pathStr.data⟩
  | .str s => s                                   -- line 195: returned unchanged

/-- Detector used to state the no-double-separator invariant: `true` iff the
list contains two adjacent `/` characters. -/
def hasDoubleSlash : List Char → Bool
  | [] => false
  | a :: t =>
      match t with
      | [] => false
      | b :: _ => (a = '/' && b = '/') || hasDoubleSlash t

/-- Lines 152-163 of `combinePaths`, before separator collapsing:
`base + route` built from the two adjustments. -/
def combineBaseRoute (b nr : List Char) : List Char :=
  -- line 153: basePath === "/" ? "" : basePath.endsWith("/") ? basePath : basePath + "/"
  let base := if b = ['/'] then [] else if b.getLast? = some '/' then b else b ++ ['/']
  -- line 157: base && normalizedRoutePath.startsWith("/") ? substring(1) : unchanged
  let route := if base ≠ [] ∧ nr.head? = some '/' then nr.tail else nr
  base ++ route

/-- Lines 166-171 of `combinePaths`: strip a trailing separator unless the
path is just `/`, and default an empty result to `/`. -/
def finalizeCombined (combined : List Char) : List Char :=
  let combined2 :=
    if 1 < combined.length ∧ combined.getLast? = some '/' then combined.dropLast else combined
  -- line 171: if (!combined) combined = "/"
  if combined2 = [] then ['/'] else combined2

def combineCore (b nr : List Char) : List Char :=
  -- line 163: (base + route).replace(/\/+/g, "/"), then lines 166-171
  finalizeCombined (collapseSlashRuns (combineBaseRoute b nr))

/-- `combinePaths` (`extract-routes.utils.ts` lines 146-174). -/
def combinePaths (basePath : String) (routePath : JSPath) : String :=
  -- line 147: basePath === "/" && routePath === "/" (strict equality with a string)
  if basePath = "/" ∧ routePath = JSPath.str "/" then "/"
  else
    let normalizedRoutePath := normalizeRoutePath routePath
    ⟨combineCore basePath.data normalizedRoutePath.data⟩

/-- An attached middleware value: only its identifying `name` is observed
(`none` models a value without a string `name` property). -/
structure MW where
  name : Option String
deriving DecidableEq, Repr

/-- An entry of `route.stack`: `s.handle || s` selects the `handle` when one
is present, otherwise the entry itself (`extractMiddlewares`, line 33). -/
inductive MWEntry where
  | withHandle (h : MW)
  | plain (m : MW)
deriving DecidableEq, Repr

/-- `extractMiddlewares` (lines 32-34): `(route.stack || []).map(s => s.handle || s)`,
here applied to the stack list. -/
def extractMiddlewares (stack : List MWEntry) : List MW :=
  stack.map (fun e => match e with | .withHandle h => h | .plain m => m)

/-- A JS value that is either a string or an array of strings (the public
`string | string[]` configuration options). -/
inductive StrOrList where
  | str (s : String)
  | list (l : List String)
deriving DecidableEq, Repr

/-- JS truthiness of an optional `string | string[]` value: `undefined` and
the empty string are falsy; every array (even empty) is truthy. -/
def jsTruthyStrOrList : Option StrOrList → Bool
  | none => false
  | some (.str s) => s ≠ ""
  | some (.list _) => true

/-- JS `String.prototype.toUpperCase()`, modelled character-wise with
`Char.toUpper` (exact on the ASCII range). -/
def jsToUpper (s : String) : String := ⟨s.data.map Char.toUpper⟩

/-- JS `String.prototype.toLowerCase()`, modelled character-wise with
`Char.toLower` (exact on the ASCII range). -/
def jsToLower (s : String) : String := ⟨s.data.map Char.toLower⟩

/-- The argument object passed to a custom `isProtected` predicate
(`determineRouteProtection`, lines 48-52). -/
structure ProtArg where
  path : String
  method : String
  middlewares : List MW

/-- `determineRouteProtection` (`extract-routes.utils.ts` lines 39-64). -/
def determineRouteProtection (path method : String) (middlewares : List MW)
    (isProtectedFn : Option (ProtArg → Bool))
    (protectionMiddlewareName : Option StrOrList) : Bool :=
  match isProtectedFn with
  | some f =>
      -- lines 47-53: the custom predicate wins, invoked with the upper-cased method
      f ⟨path, jsToUpper method, middlewares⟩
  | none =>
      -- lines 56-60: if (protectionMiddlewareName) { middlewares.some(...) }
      if jsTruthyStrOrList protectionMiddlewareName then
        middlewares.any (fun middleware =>
          match protectionMiddlewareName with
          | some (.str s) => middleware.name = some s  -- middleware?.name === name
          | some (.list _) => false  -- strict equality of a string with an array is false
          | none => false)
      else false                                       -- line 63: unprotected by default

/-- A terminal route descriptor (`layer.route`): its path fragment, the
`methods` mapping (key/truthiness pairs, in key order) and the handler
stack. -/
structure RouteDef where
  path : JSPath
  methods : List (String × Bool)
  stack : List MWEntry
deriving DecidableEq, Repr

mutual
/-- A layer's `handle` value, discriminated by the two properties the engine
probes: whether it is callable (`typeof handle === "function"`) and whether
it exposes a `stack` list (possibly empty — an empty array is truthy). -/
inductive Handle where
  | fn : Handle
  | fnStack (stack : List Layer) : Handle
  | objStack (stack : List Layer) : Handle
  | obj : Handle

/-- One node of the routing tree, carrying the four properties the engine
reads: `name`, `route`, `handle` and `regexp`. -/
inductive Layer where
  | mk (name : Option String) (route : Option RouteDef) (handle : Option Handle)
      (regexp : Option RegexVal) : Layer
end

def Layer.name : Layer → Option String
  | .mk n _ _ _ => n

def Layer.route : Layer → Option RouteDef
  | .mk _ r _ _ => r

def Layer.handle : Layer → Option Handle
  | .mk _ _ h _ => h

def Layer.regexp : Layer → Option RegexVal
  | .mk _ _ _ re => re

/-- `typeof layer.handle === "function"`. -/
def Handle.isFunction : Handle → Bool
  | .fn => true
  | .fnStack _ => true
  | _ => false

/-- `handle.stack` as an optional list (an absent property is `undefined`). -/
def Handle.stack : Handle → Option (List Layer)
  | .fnStack s => some s
  | .objStack s => some s
  | _ => none

/-- `isRouteLayer` (`extract-routes.utils.ts` lines 4-6):
`layer && !!layer.route` — any route object is truthy. -/
def isRouteLayer : Option Layer → Bool
  | none => false
  | some l => l.route.isSome

/-- `isNestedRouter` (lines 11-15):
`layer && layer.name === "router" && layer.handle && layer.handle.stack`. -/
def isNestedRouter : Option Layer → Bool
  | none => false
  | some l =>
      l.name = some "router" &&
        (match l.handle with
         | some h => h.stack.isSome
         | none => false)

/-- `isSpecialMiddleware` (lines 20-27):
`layer && layer.handle && typeof layer.handle === "function" && layer.regexp`. -/
def isSpecialMiddleware : Option Layer → Bool
  | none => false
  | some l =>
      (match l.handle with
       | some h => h.isFunction
       | none => false) && l.regexp.isSome

/-- The emitted route record (`RouteInfo`). -/
structure RouteInfo where
  method : String
  path : String
  «protected» : Bool
  middlewares : List MW
deriving DecidableEq, Repr

/-- `extractRoutesFromRouteLayer` (`extract-routes.ts` lines 239-279):
one record per declared-true method of the layer's route. -/
def extractRoutesFromRouteLayer (layer : Layer) (basePath : String)
    (isProtectedFn : Option (ProtArg → Bool)) (protectionMiddlewareName : Option StrOrList) :
    List RouteInfo :=
  match layer.route with
  | none => []                                    -- line 246: if (!route) return []
  | some route =>
      let fullPath := combinePaths basePath route.path
      -- line 253: Object.keys(route.methods).filter((m) => route.methods[m])
      let methods := (route.methods.filter (fun m => m.2)).map (fun m => m.1)
      let middlewares := extractMiddlewares route.stack
      methods.map (fun method =>
        { method := jsToUpper method
          path := fullPath
          «protected» :=
            determineRouteProtection fullPath method middlewares isProtectedFn
              protectionMiddlewareName
          middlewares := middlewares })

theorem stack_sizeOf_lt {layer : Layer} {h : Handle} {s : List Layer}
    (hh : layer.handle = some h) (hs : h.stack = some s) : sizeOf s < sizeOf layer := by
  cases layer with
  | mk n r hd re =>
      simp only [Layer.handle] at hh
      subst hh
      cases h with
      | fnStack s2 =>
          simp only [Handle.stack, Option.some.injEq] at hs
          subst hs
          simp
          omega
      | objStack s2 =>
          simp only [Handle.stack, Option.some.injEq] at hs
          subst hs
          simp
          omega
      | fn => simp [Handle.stack] at hs
      | obj => simp [Handle.stack] at hs

mutual
/-- `extractRoutesFromRouter` (`extract-routes.ts` lines 66-105) applied to
the router's `stack || []` list: `stack.flatMap(layer => ...)`. -/
def extractRoutesFromStack (stack : List Layer) (baseRoute : String)
    (isProtectedFn : Option (ProtArg → Bool)) (protectionMiddlewareName : Option StrOrList) :
    List RouteInfo :=
  match stack with
  | [] => []
  | layer :: rest =>
      extractRoutesFromLayer layer baseRoute isProtectedFn protectionMiddlewareName ++
        extractRoutesFromStack rest baseRoute isProtectedFn protectionMiddlewareName
termination_by sizeOf stack
decreasing_by
  · simp
    omega
  · simp

/-- The `flatMap` callback of `extractRoutesFromRouter` (lines 76-104): the
fixed-order dispatch over the three classifier predicates.  The nested-router
branch inlines `extractRoutesFromNestedRouter` (lines 190-210) and the
special-middleware branch inlines `extractRoutesFromSpecialMiddleware`
(lines 215-234); both re-enter the walker on the handle's inner stack. -/
def extractRoutesFromLayer (layer : Layer) (baseRoute : String)
    (isProtectedFn : Option (ProtArg → Bool)) (protectionMiddlewareName : Option StrOrList) :
    List RouteInfo :=
  if isRouteLayer (some layer) then
    extractRoutesFromRouteLayer layer baseRoute isProtectedFn protectionMiddlewareName
  else if isNestedRouter (some layer) then
    -- lines 196-202: decode the mount matcher, combine with the base path
    let subRoutePath :=
      match layer.regexp with
      | some re => extractBaseRoute (some re)
      | none => "/"
    let combinedPath := combinePaths baseRoute (.str subRoutePath)
    match hh : layer.handle with
    | some h =>
        match hs : h.stack with
        | some s =>
            extractRoutesFromStack s combinedPath isProtectedFn protectionMiddlewareName
        | none => []
    | none => []
  else if isSpecialMiddleware (some layer) then
    -- lines 221-233: recurse only if the handle carries a router-like stack
    let subRoutePath := extractBaseRoute layer.regexp
    match hh : layer.handle with
    | some h =>
        match hs : h.stack with
        | some s =>
            extractRoutesFromStack s (combinePaths baseRoute (.str subRoutePath))
              isProtectedFn protectionMiddlewareName
        | none => []
    | none => []
  else []
termination_by sizeOf layer
decreasing_by
  · exact stack_sizeOf_lt hh hs
  · exact stack_sizeOf_lt hh hs
end

/-- The `_router` value: the walker reads `router.stack || []` (line 73). -/
structure RouterObj where
  stack : Option (List Layer)

/-- The tree-bearing object handed to discovery (`app`), exposing an
optional `_router`. -/
structure AppShape where
  router : Option RouterObj

/-- The recognized configuration bundle (`DisplayRoutesConfig`), every
option absent by default; `showUnprotectedOnly` defaults to `false` on
destructuring (line 27). -/
structure DisplayRoutesConfig where
  filterDomain : Option StrOrList
  pathPrefix : Option String
  showUnprotectedOnly : Option Bool
  isProtected : Option (ProtArg → Bool)
  includeFilter : Option (RouteInfo → Bool)
  excludeFilter : Option (RouteInfo → Bool)
  protectionMiddlewareName : Option StrOrList

/-- A call with no configuration (`config = {}`). -/
def defaultConfig : DisplayRoutesConfig :=
  ⟨none, none, none, none, none, none, none⟩

/-- The filter bundle handed to `filterRoutes` (`extract-routes.ts`
lines 112-118). -/
structure FilterOpts where
  filterDomain : Option StrOrList
  pathPrefix : Option String
  showUnprotectedOnly : Bool
  includeFilter : Option (RouteInfo → Bool)
  excludeFilter : Option (RouteInfo → Bool)

/-- `applyDomainFilter` (`extract-routes.ts` lines 163-185). -/
def applyDomainFilter (routes : List RouteInfo) (filterDomain : StrOrList) :
    List RouteInfo :=
  -- line 167: Array.isArray(filterDomain) ? filterDomain : [filterDomain]
  let domains := match filterDomain with | .list l => l | .str s => [s]
  routes.filter (fun route =>
    domains.any (fun domain =>
      -- lines 172-176: lower-case the token and strip a leading separator
      let domainString := jsToLower domain
      let normalizedDomain : List Char :=
        if domainString.data.head? = some '/' then domainString.data.tail
        else domainString.data
      -- line 179: route.path.toLowerCase().split("/").filter(Boolean)
      let pathSegments :=
        ((jsToLower route.path).data.splitOn '/').filter (fun seg => !seg.isEmpty)
      -- line 182: pathSegments.includes(normalizedDomain)
      pathSegments.any (fun seg => seg = normalizedDomain)))

/-- Stage 1 of `filterRoutes` (lines 131-133): `if (filterDomain) ...`. -/
def applyDomainStage (filterDomain : Option StrOrList) (routes : List RouteInfo) :
    List RouteInfo :=
  if jsTruthyStrOrList filterDomain then
    match filterDomain with
    | some fd => applyDomainFilter routes fd
    | none => routes
  else routes

/-- Stage 2 (lines 136-140): `if (pathPrefix) ...` — keep records whose path
starts with the prefix (an empty prefix is falsy and skips the stage). -/
def applyPrefixStage (pathPrefix : Option String) (routes : List RouteInfo) :
    List RouteInfo :=
  match pathPrefix with
  | some p =>
      if p = "" then routes
      else routes.filter (fun route => p.data.isPrefixOf route.path.data)
  | none => routes

/-- Stage 3 (lines 143-145): `if (showUnprotectedOnly) ...`. -/
def applyUnprotectedStage (showUnprotectedOnly : Bool) (routes : List RouteInfo) :
    List RouteInfo :=
  if showUnprotectedOnly then routes.filter (fun route => !route.«protected»)
  else routes

/-- Stage 4 (lines 148-150): `if (includeFilter) ...`. -/
def applyIncludeStage (includeFilter : Option (RouteInfo → Bool))
    (routes : List RouteInfo) : List RouteInfo :=
  match includeFilter with
  | some g => routes.filter g
  | none => routes

/-- Stage 5 (lines 153-155): `if (excludeFilter) ...`. -/
def applyExcludeStage (excludeFilter : Option (RouteInfo → Bool))
    (routes : List RouteInfo) : List RouteInfo :=
  match excludeFilter with
  | some g => routes.filter (fun route => !g route)
  | none => routes

/-- `filterRoutes` (`extract-routes.ts` lines 110-158): the five optional
filters applied in their fixed order
domain → prefix → unprotected-only → include → exclude. -/
def filterRoutes (routes : List RouteInfo) (filters : FilterOpts) : List RouteInfo :=
  applyExcludeStage filters.excludeFilter
    (applyIncludeStage filters.includeFilter
      (applyUnprotectedStage filters.showUnprotectedOnly
        (applyPrefixStage filters.pathPrefix
          (applyDomainStage filters.filterDomain routes))))

/-- `extractRoutes` (`extract-routes.ts` lines 19-61).  The second component
counts the warning-level diagnostics emitted (`console.warn`, line 39): one
when no router is found, zero otherwise. -/
def extractRoutes (app : Option AppShape) (config : DisplayRoutesConfig) :
    List RouteInfo × Nat :=
  -- line 35: const router = app?._router
  let router := app.bind (fun a => a.router)
  match router with
  | none => ([], 1)                               -- lines 38-43: warn, return []
  | some r =>
      -- lines 46-51 with line 73: walk router.stack || [] from the root path
      let extractedRoutes :=
        extractRoutesFromStack (r.stack.getD []) "/" config.isProtected
          config.protectionMiddlewareName
      -- lines 54-60
      (filterRoutes extractedRoutes
        { filterDomain := config.filterDomain
          pathPrefix := config.pathPrefix
          showUnprotectedOnly := config.showUnprotectedOnly.getD false
          includeFilter := config.includeFilter
          excludeFilter := config.excludeFilter }, 0)

/-! ## Helper definitions and lemmas for the claims -/

/-- Escape every separator of a literal path as the compiler does:
`/` becomes `\/`. -/
def escSlash : List Char → List Char
  | [] => []
  | c :: t => if c = '/' then '\\' :: '/' :: escSlash t else c :: escSlash t

/-- The compiled matcher the framework emits for a literal mount path `p`:
the anchored-start, literal-segment, optional-trailing-marker shape
`/^<escaped p>\/?(?=\/|$)/i` named by the spec (and by the repository's own
unit tests). -/
def expressMount (p : String) : RegexVal :=
  ⟨⟨'^' :: (escSlash p.data ++ "\\/?(?=\\/|$)".data)⟩, "i"⟩

theorem takeWhile_append_of_all {p : Char → Bool} {l m : List Char}
    (h : ∀ c ∈ l, p c = true) :
    (l ++ m).takeWhile p = l ++ m.takeWhile p := by
  induction l with
  | nil => simp
  | cons c t ih =>
      have hc := h c (by simp)
      simp only [List.cons_append, List.takeWhile_cons, hc, if_true]
      rw [ih (fun x hx => h x (by simp [hx]))]

theorem escSlash_no_qmark {l : List Char} (h : '?' ∉ l) :
    ∀ c ∈ escSlash l, (decide (c ≠ '?')) = true := by
  induction l with
  | nil => simp [escSlash]
  | cons c t ih =>
      have hct : '?' ∉ t := fun ht => h (by simp [ht])
      have hc : c ≠ '?' := fun hq => h (by simp [hq])
      intro x hx
      simp only [escSlash] at hx
      by_cases hcs : c = '/'
      · rw [if_pos hcs] at hx
        simp only [List.mem_cons] at hx
        rcases hx with rfl | rfl | hx
        · decide
        · decide
        · exact ih hct x hx
      · rw [if_neg hcs] at hx
        simp only [List.mem_cons] at hx
        rcases hx with rfl | hx
        · simp [hc]
        · exact ih hct x hx

theorem unescSlash_cons_cons (a b : Char) (t : List Char) :
    unescSlash (a :: b :: t) =
      if a = '\\' ∧ b = '/' then '/' :: unescSlash t else a :: unescSlash (b :: t) := by
  rw [unescSlash]

theorem unescSlash_escSlash {l : List Char} (h : '\\' ∉ l) :
    unescSlash (escSlash l ++ ['\\', '/']) = l ++ ['/'] := by
  induction l with
  | nil => decide
  | cons c t ih =>
      have hct : '\\' ∉ t := fun ht => h (by simp [ht])
      have hc : c ≠ '\\' := fun hq => h (by simp [hq])
      by_cases hcs : c = '/'
      · subst hcs
        rw [show escSlash ('/' :: t) = '\\' :: '/' :: escSlash t from by
              rw [escSlash, if_pos rfl]]
        rw [List.cons_append, List.cons_append, unescSlash_cons_cons,
          if_pos ⟨rfl, rfl⟩, ih hct]
        simp
      · rw [show escSlash (c :: t) = c :: escSlash t from by rw [escSlash, if_neg hcs]]
        cases hE : escSlash t ++ ['\\', '/'] with
        | nil => simp at hE
        | cons b rest =>
            rw [List.cons_append, hE, unescSlash_cons_cons,
              if_neg (fun hand => hc hand.1), ← hE, ih hct]
            simp

theorem fastCapture_at_mount (X : List Char) :
    fastCapture ('/' :: '^' :: '\\' :: '/' :: X) =
      some (X.takeWhile (fun x => decide (x ≠ '?'))) := by
  simp [fastCapture]

theorem mount_toStr_data {p : String} {rest : List Char} (hrest : p.data = '/' :: rest) :
    (RegexVal.toStr (expressMount p)).data =
      '/' :: '^' :: '\\' :: '/' :: (escSlash rest ++ ("\\/?(?=\\/|$)".data ++ ['/', 'i'])) := by
  simp [RegexVal.toStr, expressMount, hrest, escSlash]

theorem mk_ne_empty {c : Char} {l : List Char} : (⟨c :: l⟩ : String) ≠ "" := by
  intro he
  have := congrArg String.data he
  simp at this

/-! ## C1 -/

/-- C1 (counterexample): the round-trip is not exact on the literal case —
decoding the compiled matcher of the literal mount `/api/users`
(`/^\/api\/users\/?(?=\/|$)/i`) yields `/api/users/`, with a trailing
separator, not `/api/users`.  (The repository's own unit test expects
`/api/users/` for exactly this pattern.) -/
theorem c1_literal_roundtrip_counterexample :
    extractBaseRoute (some (expressMount "/api/users")) = "/api/users/" ∧
    "/api/users/" ≠ "/api/users" := by
  constructor
  · decide
  · decide

/-- C1 (amended): for every literal path `p` (leading separator, no `\` or
`?` characters), decoding the compiled matcher of `p` returns `p` with one
trailing separator appended — `p ++ "/"`, not `p` itself: the fast-path
capture `[^?]*` also swallows the escaped separator of the
optional-trailing-slash marker `\/?`. -/
theorem c1_literal_roundtrip_amended (p : String)
    (h0 : p.data.head? = some '/') (h1 : '\\' ∉ p.data) (h2 : '?' ∉ p.data) :
    extractBaseRoute (some (expressMount p)) = p ++ "/" := by
  obtain ⟨rest, hrest⟩ : ∃ rest, p.data = '/' :: rest := by
    cases hd : p.data with
    | nil => rw [hd] at h0; simp at h0
    | cons c t =>
        rw [hd] at h0
        simp only [List.head?_cons, Option.some.injEq] at h0
        exact ⟨t, by rw [h0]⟩
  have h1' : '\\' ∉ rest := fun hm => h1 (by simp [hrest, hm])
  have h2' : '?' ∉ rest := fun hm => h2 (by simp [hrest, hm])
  have hfast : extractFastPathRoute (RegexVal.toStr (expressMount p)) =
      some ⟨'/' :: (rest ++ ['/'])⟩ := by
    unfold extractFastPathRoute
    rw [mount_toStr_data hrest, fastCapture_at_mount,
      takeWhile_append_of_all (escSlash_no_qmark h2'),
      show ("\\/?(?=\\/|$)".data ++ ['/', 'i']).takeWhile (fun x => decide (x ≠ '?')) =
        ['\\', '/'] from by decide]
    dsimp only
    rw [unescSlash_escSlash h1']
  unfold extractBaseRoute
  dsimp only
  rw [hfast]
  simp only [jsOrStr]
  rw [if_neg mk_ne_empty]
  exact String.ext (by simp [String.data_append, hrest])

/-- C1 (witness for the amended theorem): the literal path `/api/users`
satisfies the hypotheses, and its compiled matcher decodes to
`/api/users` + `/`. -/
theorem c1_literal_roundtrip_amended_witness :
    ("/api/users").data.head? = some '/' ∧
    extractBaseRoute (some (expressMount "/api/users")) = "/api/users" ++ "/" :=
  ⟨by decide, c1_literal_roundtrip_amended "/api/users" (by decide) (by decide) (by decide)⟩

/-! ## C2 -/

theorem extractFastPathRoute_head {s t : String}
    (h : extractFastPathRoute s = some t) : t.data.head? = some '/' := by
  unfold extractFastPathRoute at h
  cases hm : fastCapture s.data with
  | some cap =>
      rw [hm] at h
      simp only [Option.some.injEq] at h
      rw [← h]
      rfl
  | none => rw [hm] at h; exact absurd h (by simp)

theorem extractStandardRoute_head {s t : String}
    (h : extractStandardRoute s = some t) : t.data.head? = some '/' := by
  unfold extractStandardRoute at h
  split at h
  · split at h
    · injection h with h2
      rw [← h2]
      decide
    · dsimp only at h
      split at h
      · injection h with h2
        rw [← h2]
        decide
      · split at h
        · rename_i hhead
          injection h with h2
          rw [← h2]
          exact hhead
        · injection h with h2
          rw [← h2]
          simp
  · exact absurd h (by simp)

/-- C2 (confirmed): the pattern decoder is total and safe — it is a total
function by construction (it can raise no exception), for every input
(including `null`/`undefined`, modelled by `none`) it returns a string that
starts with the separator `/`, for a missing matcher it returns `/`, and when
neither the fast-path heuristic nor the structural heuristic applies it falls
back to `/`. -/
theorem c2_extractBaseRoute_total :
    (∀ r : Option RegexVal, (extractBaseRoute r).data.head? = some '/') ∧
    (extractBaseRoute none = "/") ∧
    (∀ re : RegexVal,
      extractFastPathRoute re.toStr = none →
      extractStandardRoute re.toStr = none →
      extractBaseRoute (some re) = "/") := by
  refine ⟨?_, rfl, ?_⟩
  · intro r
    cases r with
    | none => decide
    | some re =>
        unfold extractBaseRoute
        dsimp only
        cases hf : extractFastPathRoute re.toStr with
        | some t =>
            have ht := extractFastPathRoute_head hf
            have hne : t ≠ "" := fun he => by rw [he] at ht; exact absurd ht (by decide)
            simp only [jsOrStr, if_neg hne]
            exact ht
        | none =>
            simp only [jsOrStr]
            cases hs : extractStandardRoute re.toStr with
            | some t =>
                have ht := extractStandardRoute_head hs
                have hne : t ≠ "" := fun he => by rw [he] at ht; exact absurd ht (by decide)
                simp only [jsOrStr, if_neg hne]
                exact ht
            | none => rfl
  · intro re hf hs
    unfold extractBaseRoute
    dsimp only
    rw [hf, hs]
    rfl

/-- C2 (witness): for the matcher `/abc/` neither heuristic applies and the
decoder returns the fallback `/`. -/
theorem c2_extractBaseRoute_total_witness :
    extractFastPathRoute (RegexVal.toStr ⟨"abc", ""⟩) = none ∧
    extractStandardRoute (RegexVal.toStr ⟨"abc", ""⟩) = none ∧
    extractBaseRoute (some ⟨"abc", ""⟩) = "/" :=
  ⟨by decide, by decide,
    c2_extractBaseRoute_total.2.2 ⟨"abc", ""⟩ (by decide) (by decide)⟩

/-! ## C3 -/

theorem collapseSlashRuns_cons_cons (a b : Char) (t : List Char) :
    collapseSlashRuns (a :: b :: t) =
      if a = '/' ∧ b = '/' then collapseSlashRuns (b :: t)
      else a :: collapseSlashRuns (b :: t) := rfl

theorem hasDoubleSlash_cons_cons (a b : Char) (t : List Char) :
    hasDoubleSlash (a :: b :: t) = ((a = '/' && b = '/') || hasDoubleSlash (b :: t)) := rfl

theorem and_slash_false {a b : Char} (hab : ¬(a = '/' ∧ b = '/')) :
    ((a = '/' : Bool) && (b = '/' : Bool)) = false := by
  by_cases ha : a = '/'
  · by_cases hb : b = '/'
    · exact absurd ⟨ha, hb⟩ hab
    · simp [hb]
  · simp [ha]

theorem collapseSlashRuns_head (t : List Char) (b : Char) :
    (collapseSlashRuns (b :: t)).head? = some b := by
  induction t generalizing b with
  | nil => rfl
  | cons c t' ih =>
      rw [collapseSlashRuns_cons_cons]
      split
      · rename_i h
        rw [ih c, h.1, h.2]
      · rfl

theorem collapseSlashRuns_noDouble (l : List Char) :
    hasDoubleSlash (collapseSlashRuns l) = false := by
  induction l with
  | nil => rfl
  | cons a t ih =>
      cases t with
      | nil => rfl
      | cons b t' =>
          rw [collapseSlashRuns_cons_cons]
          split
          · exact ih
          · rename_i hab
            have hh := collapseSlashRuns_head t' b
            cases hC : collapseSlashRuns (b :: t') with
            | nil => rfl
            | cons x xs =>
                rw [hC] at hh
                simp only [List.head?_cons, Option.some.injEq] at hh
                subst hh
                rw [hasDoubleSlash_cons_cons, and_slash_false hab, ← hC]
                simp [ih]

theorem hasDoubleSlash_false_parts {a b : Char} {t : List Char}
    (h : hasDoubleSlash (a :: b :: t) = false) :
    ¬(a = '/' ∧ b = '/') ∧ hasDoubleSlash (b :: t) = false := by
  rw [hasDoubleSlash_cons_cons] at h
  rcases Bool.or_eq_false_iff.mp h with ⟨h1, h2⟩
  refine ⟨fun hand => ?_, h2⟩
  rw [hand.1, hand.2] at h1
  simp at h1

theorem hasDoubleSlash_dropLast : ∀ {l : List Char}, hasDoubleSlash l = false →
    hasDoubleSlash l.dropLast = false := by
  intro l
  induction l with
  | nil => intro h; exact h
  | cons a t ih =>
      intro h
      cases t with
      | nil => rfl
      | cons b t' =>
          obtain ⟨hab, hbt⟩ := hasDoubleSlash_false_parts h
          have ihb := ih hbt
          rw [show (a :: b :: t').dropLast = a :: (b :: t').dropLast from rfl]
          cases hdd : (b :: t').dropLast with
          | nil => rfl
          | cons x xs =>
              have hx : x = b := by
                cases t' with
                | nil => simp at hdd
                | cons c t'' =>
                    rw [show (b :: c :: t'').dropLast = b :: (c :: t'').dropLast from rfl] at hdd
                    injection hdd with h1 _
                    exact h1.symm
              subst hx
              rw [hasDoubleSlash_cons_cons, and_slash_false hab, ← hdd]
              simp [ihb]

theorem dropLast_getLast_ne : ∀ {l : List Char}, hasDoubleSlash l = false →
    l.getLast? = some '/' → l.dropLast.getLast? = some '/' → False := by
  intro l
  induction l with
  | nil => intro _ _ h; simp at h
  | cons a t ih =>
      intro hnd hl hdl
      cases t with
      | nil => simp at hdl
      | cons b t' =>
          obtain ⟨hab, hbt⟩ := hasDoubleSlash_false_parts hnd
          rw [List.getLast?_cons_cons] at hl
          rw [show (a :: b :: t').dropLast = a :: (b :: t').dropLast from rfl] at hdl
          cases t' with
          | nil =>
              simp at hdl hl
              exact hab ⟨hdl, hl⟩
          | cons c t'' =>
              rw [show (b :: c :: t'').dropLast = b :: (c :: t'').dropLast from rfl] at hdl
              rw [List.getLast?_cons_cons] at hdl
              rw [← show (b :: c :: t'').dropLast = b :: (c :: t'').dropLast from rfl] at hdl
              exact ih hbt hl hdl

theorem finalizeCombined_ok {combined : List Char} (hnd : hasDoubleSlash combined = false) :
    hasDoubleSlash (finalizeCombined combined) = false ∧
    ((finalizeCombined combined).getLast? = some '/' → finalizeCombined combined = ['/']) := by
  unfold finalizeCombined
  dsimp only
  split
  · rename_i hcl
    split
    · exact ⟨rfl, fun _ => rfl⟩
    · refine ⟨hasDoubleSlash_dropLast hnd, fun hlast => ?_⟩
      exact (dropLast_getLast_ne hnd hcl.2 hlast).elim
  · rename_i hncl
    split
    · exact ⟨rfl, fun _ => rfl⟩
    · rename_i hne
      refine ⟨hnd, fun hlast => ?_⟩
      cases combined with
      | nil => exact absurd rfl hne
      | cons x xs =>
          cases xs with
          | nil =>
              simp only [List.getLast?_singleton, Option.some.injEq] at hlast
              rw [hlast]
          | cons y ys =>
              have hlen : 1 < (x :: y :: ys).length := by simp
              exact absurd ⟨hlen, hlast⟩ hncl

theorem combineCore_ok (b nr : List Char) :
    hasDoubleSlash (combineCore b nr) = false ∧
    ((combineCore b nr).getLast? = some '/' → combineCore b nr = ['/']) :=
  finalizeCombined_ok (collapseSlashRuns_noDouble (combineBaseRoute b nr))

/-- C3 (confirmed): `combinePaths "/" "/" = "/"`, and for all string inputs
the combined path never contains two consecutive separators and never ends
with a separator unless the entire result is exactly `/` (i.e. its character
list is `['/']`). -/
theorem c3_combinePaths_normalized :
    combinePaths "/" (.str "/") = "/" ∧
    ∀ base sub : String,
      hasDoubleSlash (combinePaths base (.str sub)).data = false ∧
      ((combinePaths base (.str sub)).data.getLast? = some '/' →
        (combinePaths base (.str sub)).data = ['/']) := by
  refine ⟨by decide, fun base sub => ?_⟩
  unfold combinePaths
  split
  · exact ⟨by decide, fun _ => by decide⟩
  · dsimp only
    exact combineCore_ok base.data (normalizeRoutePath (.str sub)).data

/-- C3 (witness): `combinePaths "/" "//"` evaluates to a path that ends with
the separator, and the theorem forces it to be exactly `/`. -/
theorem c3_combinePaths_normalized_witness :
    (combinePaths "/" (.str "//")).data.getLast? = some '/' ∧
    (combinePaths "/" (.str "//")).data = ['/'] :=
  ⟨by decide, (c3_combinePaths_normalized.2 "/" "//").2 (by decide)⟩

/-! ## C4 -/

/-- C4 (counterexample): `normalizeRoutePath` returns a literal string
unchanged, so for the slash-less string `"users"` the result does not start
with `/` — refuting the claim for every input value. -/
theorem c4_normalizeRoutePath_counterexample :
    normalizeRoutePath (JSPath.str "users") = "users" ∧
    ¬ ("users" : String).data.head? = some '/' := ⟨rfl, by decide⟩

/-- C4 (amended): every compiled-matcher input and every non-string input
normalizes to a string starting with `/`; a literal string is returned
unchanged, so its result starts with `/` exactly when the input does. -/
theorem c4_normalizeRoutePath_amended :
    (∀ re : RegexVal, (normalizeRoutePath (.regex re)).data.head? = some '/') ∧
    (∀ d : Option String, (normalizeRoutePath (.other d)).data.head? = some '/') ∧
    (∀ s : String, normalizeRoutePath (.str s) = s) := by
  refine ⟨fun re => rfl, fun d => ?_, fun s => rfl⟩
  unfold normalizeRoutePath
  dsimp only
  split
  · rename_i hcond
    exact hcond
  · rfl

/-! ## C5 -/

/-- C5 (confirmed): when a custom predicate is supplied,
`determineRouteProtection` returns exactly the predicate's result, invoked
with the path, the upper-cased method and the middleware list, regardless of
any supplied middleware names. -/
theorem c5_protection_predicate_precedence
    (path method : String) (middlewares : List MW) (f : ProtArg → Bool)
    (protectionMiddlewareName : Option StrOrList) :
    determineRouteProtection path method middlewares (some f) protectionMiddlewareName =
      f ⟨path, jsToUpper method, middlewares⟩ := rfl

/-! ## C6 -/

/-- C6 (code bug): the README documents `protectionMiddlewareName:
string | string[]` (with a multi-name example), but the implementation
compares each middleware's name to the supplied value with `===`, which never
holds between a string and an array: with a middleware named `requireAuth`
and the supplied list `["requireAuth"]`, the code yields `false` where the
claim requires `true`. -/
theorem c6_protection_list_name_code_bug :
    determineRouteProtection "/api/users" "get" [⟨some "requireAuth"⟩] none
      (some (.list ["requireAuth"])) = false := by decide

/-! ## C7 -/

theorem applyDomainFilter_eq_filter (routes : List RouteInfo) (fd : StrOrList) :
    ∃ p, applyDomainFilter routes fd = routes.filter p := by
  unfold applyDomainFilter
  exact ⟨_, rfl⟩

theorem applyDomainStage_sublist (o : Option StrOrList) (l : List RouteInfo) :
    List.Sublist (applyDomainStage o l) l := by
  unfold applyDomainStage
  split
  · split
    · obtain ⟨p, hp⟩ := applyDomainFilter_eq_filter l _
      rw [hp]
      exact List.filter_sublist l
    · exact List.Sublist.refl l
  · exact List.Sublist.refl l

theorem applyDomainStage_mono {o o' : Option StrOrList} {l l' : List RouteInfo}
    (ho : o' = none ∨ o' = o) (h : List.Sublist l l') :
    List.Sublist (applyDomainStage o l) (applyDomainStage o' l') := by
  rcases ho with rfl | rfl
  · exact (applyDomainStage_sublist o l).trans h
  · unfold applyDomainStage
    split
    · split
      · unfold applyDomainFilter
        exact h.filter _
      · exact h
    · exact h

theorem applyPrefixStage_sublist (o : Option String) (l : List RouteInfo) :
    List.Sublist (applyPrefixStage o l) l := by
  unfold applyPrefixStage
  split
  · split
    · exact List.Sublist.refl l
    · exact List.filter_sublist l
  · exact List.Sublist.refl l

theorem applyPrefixStage_mono {o o' : Option String} {l l' : List RouteInfo}
    (ho : o' = none ∨ o' = o) (h : List.Sublist l l') :
    List.Sublist (applyPrefixStage o l) (applyPrefixStage o' l') := by
  rcases ho with rfl | rfl
  · exact (applyPrefixStage_sublist o l).trans h
  · unfold applyPrefixStage
    split
    · split
      · exact h
      · exact h.filter _
    · exact h

theorem applyUnprotectedStage_sublist (b : Bool) (l : List RouteInfo) :
    List.Sublist (applyUnprotectedStage b l) l := by
  unfold applyUnprotectedStage
  split
  · exact List.filter_sublist l
  · exact List.Sublist.refl l

theorem applyUnprotectedStage_mono {b b' : Bool} {l l' : List RouteInfo}
    (hb : b' = false ∨ b' = b) (h : List.Sublist l l') :
    List.Sublist (applyUnprotectedStage b l) (applyUnprotectedStage b' l') := by
  rcases hb with rfl | rfl
  · exact (applyUnprotectedStage_sublist b l).trans h
  · unfold applyUnprotectedStage
    split
    · exact h.filter _
    · exact h

theorem applyIncludeStage_sublist (o : Option (RouteInfo → Bool)) (l : List RouteInfo) :
    List.Sublist (applyIncludeStage o l) l := by
  unfold applyIncludeStage
  split
  · exact List.filter_sublist l
  · exact List.Sublist.refl l

theorem applyIncludeStage_mono {o o' : Option (RouteInfo → Bool)} {l l' : List RouteInfo}
    (ho : o' = none ∨ o' = o) (h : List.Sublist l l') :
    List.Sublist (applyIncludeStage o l) (applyIncludeStage o' l') := by
  rcases ho with rfl | rfl
  · exact (applyIncludeStage_sublist o l).trans h
  · unfold applyIncludeStage
    split
    · exact h.filter _
    · exact h

theorem applyExcludeStage_sublist (o : Option (RouteInfo → Bool)) (l : List RouteInfo) :
    List.Sublist (applyExcludeStage o l) l := by
  unfold applyExcludeStage
  split
  · exact List.filter_sublist l
  · exact List.Sublist.refl l

theorem applyExcludeStage_mono {o o' : Option (RouteInfo → Bool)} {l l' : List RouteInfo}
    (ho : o' = none ∨ o' = o) (h : List.Sublist l l') :
    List.Sublist (applyExcludeStage o l) (applyExcludeStage o' l') := by
  rcases ho with rfl | rfl
  · exact (applyExcludeStage_sublist o l).trans h
  · unfold applyExcludeStage
    split
    · exact h.filter _
    · exact h

theorem filterRoutes_sublist (routes : List RouteInfo) (f : FilterOpts) :
    List.Sublist (filterRoutes routes f) routes := by
  unfold filterRoutes
  exact ((((applyExcludeStage_sublist _ _).trans
    (applyIncludeStage_sublist _ _)).trans
      (applyUnprotectedStage_sublist _ _)).trans
        (applyPrefixStage_sublist _ _)).trans
          (applyDomainStage_sublist _ _)

theorem filterRoutes_nil (f : FilterOpts) : filterRoutes [] f = [] :=
  List.sublist_nil.mp (filterRoutes_sublist [] f)

/-- Configuration `a` applies a subset of the filters of configuration `b`:
each of the five filters of `a` is either absent (disabled) or identical to
the corresponding filter of `b`. -/
def FilterOpts.Weaker (a b : FilterOpts) : Prop :=
  (a.filterDomain = none ∨ a.filterDomain = b.filterDomain) ∧
  (a.pathPrefix = none ∨ a.pathPrefix = b.pathPrefix) ∧
  (a.showUnprotectedOnly = false ∨ a.showUnprotectedOnly = b.showUnprotectedOnly) ∧
  (a.includeFilter = none ∨ a.includeFilter = b.includeFilter) ∧
  (a.excludeFilter = none ∨ a.excludeFilter = b.excludeFilter)

/-- C7 (confirmed): the filter pipeline is order-stable and narrowing —
the output is always a subsequence (relative order preserved) of the input,
and the output of a configuration is a subsequence of the output of any
weaker configuration (one that applies a subset of its filters) on the same
input; in particular applying all five filters never yields a superset of
applying any strict subset of them. -/
theorem c7_filter_narrowing :
    (∀ (routes : List RouteInfo) (f : FilterOpts), List.Sublist (filterRoutes routes f) routes) ∧
    (∀ (a b : FilterOpts) (routes : List RouteInfo), FilterOpts.Weaker a b →
      List.Sublist (filterRoutes routes b) (filterRoutes routes a)) := by
  refine ⟨filterRoutes_sublist, fun a b routes hw => ?_⟩
  obtain ⟨h1, h2, h3, h4, h5⟩ := hw
  unfold filterRoutes
  exact applyExcludeStage_mono h5 (applyIncludeStage_mono h4
    (applyUnprotectedStage_mono h3 (applyPrefixStage_mono h2
      (applyDomainStage_mono h1 (List.Sublist.refl routes)))))

/-- C7 (witness): a configuration with only the path-prefix filter is weaker
than one that also excludes GET records; on a concrete two-record input the
full configuration's output is a subsequence of the weaker one's. -/
theorem c7_filter_narrowing_witness :
    FilterOpts.Weaker ⟨none, some "/a", false, none, none⟩
      ⟨none, some "/a", true, none, none⟩ ∧
    List.Sublist
      (filterRoutes [⟨"GET", "/a/x", false, []⟩, ⟨"GET", "/b", true, []⟩]
        ⟨none, some "/a", true, none, none⟩)
      (filterRoutes [⟨"GET", "/a/x", false, []⟩, ⟨"GET", "/b", true, []⟩]
        ⟨none, some "/a", false, none, none⟩) :=
  ⟨⟨Or.inl rfl, Or.inr rfl, Or.inl rfl, Or.inl rfl, Or.inl rfl⟩,
    c7_filter_narrowing.2 ⟨none, some "/a", false, none, none⟩
      ⟨none, some "/a", true, none, none⟩ _
      ⟨Or.inl rfl, Or.inr rfl, Or.inl rfl, Or.inl rfl, Or.inl rfl⟩⟩

/-! ## C8 -/

/-- C8 (counterexample): with a router present whose root node list is empty,
discovery returns `[]` but emits zero warning diagnostics — the warning is
emitted only when no router object is found at all — refuting "exactly one
warning-level diagnostic". -/
theorem c8_empty_stack_counterexample :
    extractRoutes (some ⟨some ⟨some []⟩⟩) defaultConfig = ([], 0) := by
  simp only [extractRoutes, defaultConfig, Option.bind, Option.getD, extractRoutesFromStack]
  rw [filterRoutes_nil]

/-- C8 (amended): discovery warns exactly once and returns `[]` when no
router object can be found (no tree-bearing object, or no `_router` on it);
when a router is present but its root node list is empty, discovery returns
`[]` and emits no diagnostic at all. -/
theorem c8_missing_router_amended :
    (∀ cfg, extractRoutes none cfg = ([], 1)) ∧
    (∀ cfg (a : AppShape), a.router = none → extractRoutes (some a) cfg = ([], 1)) ∧
    (∀ cfg (r : RouterObj), r.stack = some [] →
      extractRoutes (some ⟨some r⟩) cfg = ([], 0)) := by
  refine ⟨fun cfg => rfl, fun cfg a ha => ?_, fun cfg r hr => ?_⟩
  · unfold extractRoutes
    dsimp only
    rw [show (some a).bind (fun x => x.router) = a.router from rfl, ha]
  · unfold extractRoutes
    dsimp only
    rw [show (some (AppShape.mk (some r))).bind (fun x => x.router) = some r from rfl]
    dsimp only
    rw [hr]
    simp only [Option.getD, extractRoutesFromStack]
    rw [filterRoutes_nil]

/-- C8 (witness): a tree-bearing object without `_router` warns once; a
router with an empty node list returns `[]` with no warning. -/
theorem c8_missing_router_amended_witness :
    extractRoutes (some ⟨none⟩) defaultConfig = ([], 1) ∧
    extractRoutes (some ⟨some ⟨some []⟩⟩) defaultConfig = ([], 0) :=
  ⟨c8_missing_router_amended.2.1 defaultConfig ⟨none⟩ rfl,
    c8_missing_router_amended.2.2 defaultConfig ⟨some []⟩ rfl⟩

/-! ## C9 -/

/-- C9 (counterexample): the classifier predicates are not mutually
exclusive — a node shaped like a genuine nested router (kind tag `router`,
a callable handler exposing an inner stack, and a compiled matcher)
satisfies both `isNestedRouter` and `isSpecialMiddleware`. -/
theorem c9_classifier_overlap_counterexample :
    isNestedRouter (some (Layer.mk (some "router") none
      (some (.fnStack [])) (some ⟨"^\\/api", "i"⟩))) = true ∧
    isSpecialMiddleware (some (Layer.mk (some "router") none
      (some (.fnStack [])) (some ⟨"^\\/api", "i"⟩))) = true := by
  exact ⟨by decide, by decide⟩

/-- C9 (amended): the three predicates may overlap, but the walker tests
them in the fixed order route → nested-router → special-middleware, so a
node satisfying `isRouteLayer` is always handled by the route branch alone,
and a node failing all three predicates contributes nothing. -/
theorem c9_classifier_precedence_amended :
    (∀ (l : Layer) (base : String) f p, isRouteLayer (some l) = true →
      extractRoutesFromLayer l base f p = extractRoutesFromRouteLayer l base f p) ∧
    (∀ (l : Layer) (base : String) f p,
      isRouteLayer (some l) = false → isNestedRouter (some l) = false →
      isSpecialMiddleware (some l) = false →
      extractRoutesFromLayer l base f p = []) := by
  constructor
  · intro l base f p h
    unfold extractRoutesFromLayer
    rw [if_pos h]
  · intro l base f p h1 h2 h3
    unfold extractRoutesFromLayer
    simp [h1, h2, h3]

/-- C9 (witness): a terminal route node is dispatched to the route branch,
and a bare node (no name, route, handler or matcher) is skipped. -/
theorem c9_classifier_precedence_amended_witness :
    isRouteLayer (some (Layer.mk none (some ⟨.str "/u", [("get", true)], []⟩) none none))
        = true ∧
    extractRoutesFromLayer (Layer.mk none (some ⟨.str "/u", [("get", true)], []⟩) none none)
        "/" none none =
      extractRoutesFromRouteLayer
        (Layer.mk none (some ⟨.str "/u", [("get", true)], []⟩) none none) "/" none none ∧
    extractRoutesFromLayer (Layer.mk none none none none) "/" none none = [] :=
  ⟨by decide,
    c9_classifier_precedence_amended.1 _ "/" none none (by decide),
    c9_classifier_precedence_amended.2 _ "/" none none (by decide) (by decide) (by decide)⟩

/-! ## C10 -/

/-- The terminal node of the scenario: path fragment `/users`, methods GET
and POST declared true, no middleware. -/
def usersRoute : RouteDef :=
  { path := .str "/users", methods := [("get", true), ("post", true)], stack := [] }

/-- The layer wrapping `usersRoute` (a terminal route node). -/
def usersLayer : Layer := .mk (some "bound dispatch") (some usersRoute) none none

/-- The scenario tree: one nested sub-router with compiled matcher `re`
containing the single terminal node `usersLayer`. -/
def apiApp (re : RegexVal) : Option AppShape :=
  some ⟨some ⟨some [Layer.mk (some "router") none (some (.fnStack [usersLayer])) (some re)]⟩⟩

/-- C10 (confirmed): for a tree with one nested sub-router whose compiled
matcher decodes to `/api` and, inside it, one terminal node at path fragment
`/users` declaring GET and POST with no middleware, discovery returns exactly
the two records `{GET, /api/users, unprotected}` and
`{POST, /api/users, unprotected}`, sharing the path and the empty middleware
list, with no diagnostics. -/
theorem c10_nested_scenario (re : RegexVal) (h : extractBaseRoute (some re) = "/api") :
    extractRoutes (apiApp re) defaultConfig =
      ([{ method := "GET", path := "/api/users", «protected» := false, middlewares := [] },
        { method := "POST", path := "/api/users", «protected» := false, middlewares := [] }],
        0) := by
  simp only [extractRoutes, apiApp, defaultConfig, Option.bind, Option.getD,
    extractRoutesFromStack, extractRoutesFromLayer, isRouteLayer, isNestedRouter,
    isSpecialMiddleware, Layer.route, Layer.name, Layer.handle, Layer.regexp, Handle.stack,
    Handle.isFunction, usersLayer, usersRoute, Option.isSome, h]
  simp
  decide

/-- C10 (witness): the matcher `/^\/api?/` decodes exactly to `/api`, and on
the scenario tree built from it discovery yields the two records. -/
theorem c10_nested_scenario_witness :
    extractBaseRoute (some ⟨"^\\/api?", ""⟩) = "/api" ∧
    extractRoutes (apiApp ⟨"^\\/api?", ""⟩) defaultConfig =
      ([{ method := "GET", path := "/api/users", «protected» := false, middlewares := [] },
        { method := "POST", path := "/api/users", «protected» := false, middlewares := [] }],
        0) :=
  ⟨by decide, c10_nested_scenario ⟨"^\\/api?", ""⟩ (by decide)⟩

end RouteViz
